import Mathlib

/-!
Shallow embedding of `scripts/build_data.py` (tolerant XLSX reader and
dataset transformer) together with proofs about the claims of its design
specification.  Python values are modelled explicitly: machine strings as
`String`, Python `None` as `Option`, fallible code as `Except`, and the
`float` domain as the rationals (every IEEE double that the code can see is
a rational; `is_integer`/truncation only depend on the rational value).
-/

set_option maxHeartbeats 1000000

namespace BuildData

/-- Python whitespace as used by `str.strip()` / `int()` (ASCII range;
exotic Unicode spaces are not modelled, no claim depends on them). -/
def isPySpace (c : Char) : Bool :=
  c == ' ' || c == '\t' || c == '\n' || c == '\r' || c == '\x0b' || c == '\x0c'

/-- Python `str.strip()`. -/
def pyStrip (s : String) : String :=
  String.mk (((s.data.dropWhile isPySpace).reverse.dropWhile isPySpace).reverse)

/-- A cell/header value is blank when it is `None` or strips to the empty
string (the test `v is None or str(v).strip() == ""` used throughout
`parse_xlsx_dataset`). -/
def isBlank : Option String → Bool
  | Option.none => true
  | some s => pyStrip s == ""

/-- ASCII decimal digit, the digits accepted by `re` patterns such as
`\d+` (Unicode digits are not modelled). -/
def isDigit09 (c : Char) : Bool :=
  48 ≤ c.toNat && c.toNat ≤ 57

/-- Uppercase ASCII letter `A`..`Z`. -/
def isUpperAZ (c : Char) : Bool :=
  65 ≤ c.toNat && c.toNat ≤ 90

/-- Numeric value of a list of ASCII digits (with Python's underscore
separators skipped), most significant first. -/
def digitsVal (cs : List Char) : Nat :=
  cs.foldl (fun a c => if c == '_' then a else a * 10 + (c.toNat - 48)) 0

/-- After an initial digit, Python's `int()` accepts digits with single
underscores strictly between digits. -/
def duTail : List Char → Bool
  | [] => true
  | ['_'] => false
  | '_' :: c :: r => isDigit09 c && duTail r
  | c :: r => isDigit09 c && duTail r

/-- A digit group accepted by Python `int()` after the optional sign. -/
def intDigits : List Char → Bool
  | [] => false
  | c :: r => isDigit09 c && duTail r

/-- Python `int(s)` on a string: strip whitespace, optional sign, then
decimal digits (single underscores between digits allowed); `Option.none`
models the `ValueError` raise. -/
def pyParseInt (s : String) : Option Int :=
  let cs := (pyStrip s).data
  match cs with
  | '+' :: rest => if intDigits rest then some (digitsVal rest) else Option.none
  | '-' :: rest => if intDigits rest then some (-(digitsVal rest : Int)) else Option.none
  | rest => if intDigits rest then some (digitsVal rest) else Option.none

/-- Python runtime values that can reach `to_int`. A `float` is modelled
by its exact rational value (every finite IEEE double is rational) or as
non-finite. -/
inductive PyValue where
  | vnone : PyValue
  | vbool : Bool → PyValue
  | vint : Int → PyValue
  | vfloat : ℚ → PyValue
  | vnan : PyValue
  | vinf : PyValue
  | vstr : String → PyValue

/-- `to_int` from `build_data.py`: `None`/`bool` are rejected, `int`
passes through, a `float` with `is_integer()` truncates (exactly, since it
has no fractional part), and a string must strip to a non-empty run of
decimal digits (`re.fullmatch(r"\d+", s)`).  Everything else is `None`. -/
def to_int : PyValue → Option Int
  | PyValue.vnone => Option.none
  | PyValue.vbool _ => Option.none
  | PyValue.vint n => some n
  | PyValue.vfloat q => if q.den = 1 then some q.num else Option.none
  | PyValue.vnan => Option.none
  | PyValue.vinf => Option.none
  | PyValue.vstr v =>
    let s := pyStrip v
    if s.data ≠ [] ∧ s.data.all isDigit09 then some (digitsVal s.data) else Option.none

/-- Lookup in an insertion-ordered association list with `Nat` values
(Python `dict` read). -/
def lookupCnt : List (String × Nat) → String → Option Nat
  | [], _ => Option.none
  | (k, n) :: rest, s => if k = s then some n else lookupCnt rest s

/-- Write to an insertion-ordered association list with `Nat` values
(Python `dict` write: update in place when present, append when new). -/
def setCnt : List (String × Nat) → String → Nat → List (String × Nat)
  | [], s, n => [(s, n)]
  | (k, m) :: rest, s, n =>
    if k = s then (k, n) :: rest else (k, m) :: setCnt rest s n

/-- Worker of `clean_headers`, carrying the `seen` occurrence-count dict. -/
def cleanAux : List (String × Nat) → List (Option String) → List (Option String)
  | _, [] => []
  | seen, h :: rest =>
    match h with
    | Option.none => Option.none :: cleanAux seen rest
    | some hv =>
      let s := pyStrip hv
      if s = "" then Option.none :: cleanAux seen rest
      else
        match lookupCnt seen s with
        | some n => some (s ++ "_" ++ toString (n + 1)) :: cleanAux (setCnt seen s (n + 1)) rest
        | Option.none => some s :: cleanAux (setCnt seen s 1) rest

/-- `clean_headers` from `build_data.py`. -/
def clean_headers (headers : List (Option String)) : List (Option String) :=
  cleanAux [] headers

/-- Python `str.upper()` on one character (ASCII range). -/
def pyUpper (c : Char) : Char :=
  if 97 ≤ c.toNat ∧ c.toNat ≤ 122 then Char.ofNat (c.toNat - 32) else c

/-- `_col_to_index` from `build_data.py`: uppercase, then fold
`idx = idx * 26 + (ord(ch) - ord("A") + 1)` and subtract one.  The Python
function is total: it performs no validation and raises nothing. -/
def _col_to_index (col_letters : String) : Int :=
  ((col_letters.data.map pyUpper).foldl
      (fun idx ch => idx * 26 + ((ch.toNat : Int) - 65 + 1)) 0) - 1

/-- Case-insensitive prefix strip (pattern given in lowercase), used to
model the anchored `re.I` patterns of `extract_number_columns`. -/
def stripCI : List Char → List Char → Option (List Char)
  | cs, [] => some cs
  | [], _ :: _ => Option.none
  | c :: cs, p :: ps => if pyUpper p == pyUpper c then stripCI cs ps else Option.none

/-- The `\s*\d+$` tail of the header patterns. -/
def spacedDigitsTail (rest : List Char) : Bool :=
  let r := rest.dropWhile isPySpace
  !r.isEmpty && r.all isDigit09

/-- One of `^Bola\s*\d+$ / ^Trevo\s*\d+$ / ^Coluna\s*\d+$` (the no-space
variants in the source are subsumed by `\s*`), case-insensitive. -/
def matchesNumberPattern (s : String) : Bool :=
  [['b', 'o', 'l', 'a'], ['t', 'r', 'e', 'v', 'o'], ['c', 'o', 'l', 'u', 'n', 'a']].any
    fun p =>
      match stripCI s.data p with
      | some rest => spacedDigitsTail rest
      | Option.none => false

/-- `extract_number_columns` from `build_data.py`. -/
def extract_number_columns (headers : List (Option String)) : List String :=
  headers.filterMap fun h =>
    match h with
    | Option.none => Option.none
    | some hv =>
      if hv = "" then Option.none
      else
        let hs := pyStrip hv
        if matchesNumberPattern hs then some hs else Option.none

/-- A worksheet `<c>` element as seen by `read_first_sheet_rows`:
`ref` is the `r` attribute, `typ` the `t` attribute, `vNode` the optional
`<v>` child together with its optional text, and `tNode` the optional
first `<t>` descendant (used for inline strings) with its optional text. -/
structure Cell where
  ref : Option String
  typ : Option String
  vNode : Option (Option String)
  tNode : Option (Option String)

/-- `re.match(r"([A-Z]+)(\d+)", ref)` followed by `m.group(1)`: the match
succeeds exactly when the maximal uppercase-letter head is non-empty and
is immediately followed by a digit, and group 1 is that head (the digits
— the row-number portion — are never used by the source). -/
def refMatch (r : String) : Option String :=
  let letters := r.data.takeWhile isUpperAZ
  let rest := r.data.dropWhile isUpperAZ
  match letters, rest with
  | [], _ => Option.none
  | _ :: _, d :: _ => if isDigit09 d then some (String.mk letters) else Option.none
  | _ :: _, [] => Option.none

/-- Value resolution for one cell (lines 176-188 of the source).  The
`int(v_el.text)` call on a shared-string cell is the one place where a
single malformed cell can raise (`ValueError`); an out-of-range parsed
index falls back to the raw text instead. -/
def resolveCellValue (shared : List String) (c : Cell) : Except String (Option String) :=
  if c.typ = some "s" then
    match c.vNode with
    | some (some txt) =>
      match pyParseInt txt with
      | some si =>
        Except.ok (some (if 0 ≤ si ∧ si < (shared.length : Int)
          then shared.getD si.toNat "" else txt))
      | Option.none => Except.error "ValueError"
    | _ => Except.ok Option.none
  else if c.typ = some "inlineStr" then
    Except.ok (match c.tNode with | some t => t | Option.none => Option.none)
  else
    Except.ok (match c.vNode with | some t => t | Option.none => Option.none)

/-- The per-row cell loop (lines 166-191): resolve each cell's column via
the cursor (reset by an explicit reference, otherwise sequential), record
the write, and track the global maximum column.  Column indices are kept
as `Nat`: the cursor starts at 0 and `refMatch` only ever feeds non-empty
uppercase labels to `_col_to_index`, whose result is then nonnegative
(`Int.toNat` is the identity on the reachable values). -/
def processCells (shared : List String) :
    List Cell → Nat → Nat → Except String (List (Nat × Option String) × Nat)
  | [], _, g => Except.ok ([], g)
  | c :: cs, cur, g =>
    let cur1 : Nat :=
      match c.ref with
      | Option.none => cur
      | some r =>
        match refMatch r with
        | some letters => (_col_to_index letters).toNat
        | Option.none => cur
    match resolveCellValue shared c with
    | Except.error e => Except.error e
    | Except.ok v =>
      match processCells shared cs (cur1 + 1) (max g cur1) with
      | Except.error e => Except.error e
      | Except.ok (rest, g2) => Except.ok ((cur1, v) :: rest, g2)

/-- Materialize one row (lines 197-199): start from `[None] * width` and
apply the cell writes; the Python `dict` collapses duplicate columns with
last-write-wins, which replaying the writes in order reproduces. -/
def buildRow (width : Nat) (writes : List (Nat × Option String)) : List (Option String) :=
  writes.foldl (fun row iv => row.set iv.1 iv.2) (List.replicate width Option.none)

/-- The row loop of `read_first_sheet_rows` (lines 162-200), carrying the
accumulated matrix and the running global maximum column: empty rows
before the first materialized row are skipped, and each kept row is built
with width `global_max_col + 1` as it stands at that moment. -/
def readRowsAux (shared : List String) :
    List (List Cell) → List (List (Option String)) → Nat →
    Except String (List (List (Option String)) × Nat)
  | [], acc, g => Except.ok (acc, g)
  | cs :: rs, acc, g =>
    match processCells shared cs 0 g with
    | Except.error e => Except.error e
    | Except.ok (writes, g2) =>
      if writes.isEmpty && acc.isEmpty then readRowsAux shared rs acc g2
      else readRowsAux shared rs (acc ++ [buildRow (g2 + 1) writes]) g2

/-- `read_first_sheet_rows` on an already-extracted first sheet (the zip
and XML plumbing is out of the claims' scope): the sheet is its list of
`<row>` elements, each a list of `<c>` cells. -/
def read_first_sheet_rows (shared : List String) (sheetRows : List (List Cell)) :
    Except String (List (List (Option String))) :=
  match readRowsAux shared sheetRows [] 0 with
  | Except.error e => Except.error e
  | Except.ok (rows, _) => Except.ok rows

/-- An `<si>` entry of the shared-string part: the optional texts of its
`<t>` descendants in document order. -/
structure SiNode where
  ts : List (Option String)

/-- `_parse_shared_strings`: the `try: zf.read(...) except KeyError`
around the part read is modelled by the `Option` argument — an absent
part yields `[]` and nothing is raised.  Present parts concatenate the
truthy texts of each entry's `<t>` runs. -/
def _parse_shared_strings (part : Option (List SiNode)) : List String :=
  match part with
  | Option.none => []
  | some sis =>
    sis.map fun si =>
      String.join (si.ts.filterMap fun t =>
        match t with
        | some s => if s = "" then Option.none else some s
        | Option.none => Option.none)

/-- Lookup in an insertion-ordered `dict[str, str]`. -/
def dictGet : List (String × String) → String → Option String
  | [], _ => Option.none
  | (k, v) :: rest, s => if k = s then some v else dictGet rest s

/-- Write to an insertion-ordered `dict[str, str]`. -/
def dictInsert : List (String × String) → String → String → List (String × String)
  | [], k, v => [(k, v)]
  | (k1, v1) :: rest, k, v =>
    if k1 = k then (k1, v) :: rest else (k1, v1) :: dictInsert rest k v

/-- One draw record: the header-to-trimmed-text mapping plus the derived
`__numbers` sequence (stored as a possibly-empty list; the source only
materializes the `"__numbers"` key when the list is non-empty). -/
structure Rec where
  fields : List (String × String)
  numbers : List Int

/-- `rec.get(col)` feeds `to_int` either `None` or a `str`. -/
def pyOfOptStr : Option String → PyValue
  | Option.none => PyValue.vnone
  | some s => PyValue.vstr s

/-- The body of the data-row loop of `parse_xlsx_dataset` (lines 226-256):
truncate to header width, skip all-blank rows and rows with a blank first
column, otherwise build the record and its derived numbers. -/
def procRow (headers : List (Option String)) (numCols : List String)
    (row0 : List (Option String)) : Option Rec :=
  let row := row0.take headers.length
  if row.isEmpty || row.all isBlank then Option.none
  else if isBlank (row.headD Option.none) then Option.none
  else
    let fields := (headers.zip row).foldl
      (fun rec hv =>
        match hv.1 with
        | Option.none => rec
        | some h =>
          if h = "" then rec
          else
            match hv.2 with
            | Option.none => rec
            | some v =>
              let s := pyStrip v
              if s = "" then rec else dictInsert rec h s)
      []
    let nums := numCols.filterMap fun col => to_int (pyOfOptStr (dictGet fields col))
    some { fields := fields, numbers := nums }

/-- The records contributed by a list of data rows. -/
def drawsOf (headers : List (Option String)) (numCols : List String)
    (rows : List (List (Option String))) : List Rec :=
  rows.filterMap (procRow headers numCols)

/-- `counts[str(n)] = counts.get(str(n), 0) + 1`. -/
def bumpCount (m : List (String × Nat)) (k : String) : List (String × Nat) :=
  match lookupCnt m k with
  | some n => setCnt m k (n + 1)
  | Option.none => m ++ [(k, 1)]

/-- The frequency map over all records' derived numbers. -/
def countsOf (draws : List Rec) : List (String × Nat) :=
  draws.foldl (fun m d => d.numbers.foldl (fun m2 n => bumpCount m2 (toString n)) m) []

/-- The running total of derived numbers. -/
def totalOf (draws : List Rec) : Nat :=
  draws.foldl (fun t d => t + d.numbers.length) 0

/-- `last = 0; for i, v in enumerate(l): if non-blank: last = i`. -/
def lastIdxAux : List (Option String) → Nat → Nat → Nat
  | [], _, last => last
  | v :: rest, i, last => lastIdxAux rest (i + 1) (if isBlank v then last else i)

/-- Index of the last non-blank header cell (0 when none is non-blank). -/
def lastIdx (l : List (Option String)) : Nat :=
  lastIdxAux l 0 0

/-- Python's `a or b` on optional strings (a present empty string is
falsy; record values are never empty, but the model keeps the case). -/
def pyOrStr (a b : Option String) : Option String :=
  match a with
  | some s => if s = "" then b else some s
  | Option.none => b

/-- The dataset assembled by `parse_xlsx_dataset` (the `meta` fields that
are plain I/O — file names, timestamp — are out of the claims' scope). -/
structure Dataset where
  meta_rows : Nat
  number_columns : List String
  total_numbers : Nat
  number_counts : List (String × Nat)
  last_concurso : Option String
  last_data : Option String
  draws : List Rec

/-- `parse_xlsx_dataset` on an already-read matrix (lines 208-287): the
`raise RuntimeError("Sem dados ...")` on an empty matrix — the spec's
`EmptyWorkbook` — is the only failure of the transform. -/
def parse_xlsx_dataset (matrix : List (List (Option String))) : Except String Dataset :=
  match matrix with
  | [] => Except.error "Sem dados"
  | header_raw :: dataRows =>
    let hr := header_raw.take (lastIdx header_raw + 1)
    let headers := clean_headers hr
    let num_cols := extract_number_columns headers
    let draws := drawsOf headers num_cols dataRows
    let lastD := draws.getLast?
    Except.ok
      { meta_rows := draws.length
        number_columns := num_cols
        total_numbers := totalOf draws
        number_counts := countsOf draws
        last_concurso :=
          match lastD with
          | Option.none => Option.none
          | some d => dictGet d.fields "Concurso"
        last_data :=
          match lastD with
          | Option.none => Option.none
          | some d =>
            pyOrStr (dictGet d.fields "Data do Sorteio")
              (pyOrStr (dictGet d.fields "Data de Sorteio")
                (dictGet d.fields "Data de apuração"))
        draws := draws }

/-! Specification-side definitions (written from the spec's words, for
refinement comparisons) and concrete inputs used by the theorems. -/

/-- `to_int` as the specification words it: an integer is returned as-is;
a float with no fractional remainder truncates to its integer value; a
string that, after trimming, consists entirely of decimal digits parses;
every other case is not-a-number. -/
def to_int_claimed : PyValue → Option Int
  | PyValue.vint n => some n
  | PyValue.vfloat q => if q.den = 1 then some q.num else Option.none
  | PyValue.vstr v =>
    let s := pyStrip v
    if s.data ≠ [] ∧ s.data.all isDigit09 then some (digitsVal s.data) else Option.none
  | _ => Option.none

/-- Number of earlier occurrences of the trimmed non-blank name `s` among
the headers `prev`. -/
def occCnt (prev : List (Option String)) (s : String) : Nat :=
  prev.countP fun h =>
    match h with
    | some hv => decide (pyStrip hv = s)
    | Option.none => false

/-- `clean_headers` as the specification words it, phrased positionally:
blank/absent headers become absent; a non-blank trimmed name keeps its
bare form at its first occurrence and gains the suffix `_<n>` at its
`n`-th occurrence (`n ≥ 2`). -/
def cleanClaimAux (prev : List (Option String)) : List (Option String) → List (Option String)
  | [] => []
  | h :: rest =>
    match h with
    | Option.none => Option.none :: cleanClaimAux (prev ++ [h]) rest
    | some hv =>
      let s := pyStrip hv
      if s = "" then Option.none :: cleanClaimAux (prev ++ [h]) rest
      else
        let k := occCnt prev s + 1
        (if k = 1 then some s else some (s ++ "_" ++ toString k)) :: cleanClaimAux (prev ++ [h]) rest

/-- The claimed header-cleaning function. -/
def clean_headers_claimed (headers : List (Option String)) : List (Option String) :=
  cleanClaimAux [] headers

/-- A valid column label per the spec: non-empty, uppercase alphabetic
(`A`..`Z`). -/
def validLabel (s : String) : Prop :=
  s.data ≠ [] ∧ ∀ c ∈ s.data, isUpperAZ c = true

/-- Spreadsheet label order: shorter labels first, lexicographic within a
length (`"A" < ... < "Z" < "AA" < ...`). -/
def labelLt (a b : String) : Prop :=
  a.data.length < b.data.length ∨
    (a.data.length = b.data.length ∧ List.Lex (fun c d : Char => c < d) a.data b.data)

/-- One step of the base-26 fold of `_col_to_index`. -/
def colStep (idx : Int) (ch : Char) : Int :=
  idx * 26 + ((ch.toNat : Int) - 65 + 1)

/-- The base-26 fold of `_col_to_index` over a character list. -/
def colVal (cs : List Char) : Int :=
  cs.foldl colStep 0

/-- `(26 ^ n - 1) / 25`, the value of the all-`A` label of length `n`:
the smallest fold value over valid labels of that length. -/
def repunit : Nat → Int
  | 0 => 0
  | n + 1 => 26 * repunit n + 1

/-- Invariant of the row-materialization loop: accumulated row lengths
are nondecreasing, bounded by `g + 1` (one past the running maximum
column), and the most recently materialized row has exactly that width. -/
def RowsInv (acc : List (List (Option String))) (g : Nat) : Prop :=
  List.Pairwise (fun a b => a ≤ b) (acc.map fun r => r.length) ∧
  (∀ r ∈ acc, r.length ≤ g + 1) ∧
  (∀ l, acc.getLast? = some l → l.length = g + 1)

/-- A sheet whose first row only touches column 0 and whose second row
jumps to column `B`: the materialized rows then have different widths. -/
def cexSheet : List (List Cell) :=
  [[{ ref := Option.none, typ := Option.none, vNode := some (some "a"), tNode := Option.none }],
   [{ ref := some "B1", typ := Option.none, vNode := some (some "b"), tNode := Option.none }]]

/-- A shared-string cell whose `<v>` text is not parseable as an integer. -/
def cellBadShared : Cell :=
  { ref := Option.none, typ := some "s", vNode := some (some "abc"), tNode := Option.none }

/-- A shared-string cell referencing index 0. -/
def cellSharedZero : Cell :=
  { ref := Option.none, typ := some "s", vNode := some (some "0"), tNode := Option.none }

/-- An untyped cell carrying the explicit reference `C7`. -/
def cellRefC7 : Cell :=
  { ref := some "C7", typ := Option.none, vNode := some (some "x"), tNode := Option.none }

/-! Helper lemmas. -/

theorem lookupCnt_setCnt_self (m : List (String × Nat)) (s : String) (n : Nat) :
    lookupCnt (setCnt m s n) s = some n := by
  induction m with
  | nil => simp [setCnt, lookupCnt]
  | cons kv rest ih =>
    obtain ⟨k, v⟩ := kv
    by_cases hk : k = s
    · simp [setCnt, lookupCnt, hk]
    · simp [setCnt, lookupCnt, hk, ih]

theorem lookupCnt_setCnt_ne (m : List (String × Nat)) (s t : String) (n : Nat)
    (h : t ≠ s) : lookupCnt (setCnt m s n) t = lookupCnt m t := by
  induction m with
  | nil =>
    simp only [setCnt, lookupCnt]
    rw [if_neg fun hh : s = t => h hh.symm]
  | cons kv rest ih =>
    obtain ⟨k, v⟩ := kv
    by_cases hk : k = s
    · subst hk
      simp only [setCnt, if_pos rfl, lookupCnt]
      rw [if_neg fun hh : k = t => h hh.symm, if_neg fun hh : k = t => h hh.symm]
    · simp only [setCnt, if_neg hk, lookupCnt]
      by_cases hkt : k = t
      · rw [if_pos hkt, if_pos hkt]
      · rw [if_neg hkt, if_neg hkt, ih]

theorem occCnt_append_none (prev : List (Option String)) (s : String) :
    occCnt (prev ++ [Option.none]) s = occCnt prev s := by
  simp [occCnt, List.countP_append, List.countP_cons]

theorem occCnt_append_some (prev : List (Option String)) (hv : String) (s : String) :
    occCnt (prev ++ [some hv]) s =
      occCnt prev s + (if pyStrip hv = s then 1 else 0) := by
  simp [occCnt, List.countP_append, List.countP_cons]

/-- Coherence of the `seen` dict with the processed header positions
propagates through `cleanAux`, making it agree with the positional
phrasing of the spec. -/
theorem cleanAux_eq_claim :
    ∀ (rest : List (Option String)) (seen : List (String × Nat)) (prev : List (Option String)),
      (∀ s, s ≠ "" →
        lookupCnt seen s = if occCnt prev s = 0 then Option.none else some (occCnt prev s)) →
      cleanAux seen rest = cleanClaimAux prev rest := by
  intro rest
  induction rest with
  | nil => intro seen prev _; rfl
  | cons hd tl ih =>
    intro seen prev hinv
    cases hd with
    | none =>
      simp only [cleanAux, cleanClaimAux]
      rw [ih seen (prev ++ [Option.none])]
      intro s hs
      rw [occCnt_append_none]
      exact hinv s hs
    | some hv =>
      simp only [cleanAux, cleanClaimAux]
      by_cases hblank : pyStrip hv = ""
      · rw [if_pos hblank, if_pos hblank]
        rw [ih seen (prev ++ [some hv])]
        intro s hs
        rw [occCnt_append_some]
        rw [if_neg fun hh : pyStrip hv = s => hs (hh.symm.trans hblank)]
        simpa using hinv s hs
      · rw [if_neg hblank, if_neg hblank]
        have hlook := hinv (pyStrip hv) hblank
        have hinv' : ∀ c : Nat,
            (∀ s, s ≠ "" → lookupCnt (setCnt seen (pyStrip hv) c) s =
              if occCnt (prev ++ [some hv]) s = 0 then Option.none
              else some (occCnt (prev ++ [some hv]) s)) ↔
            (lookupCnt (setCnt seen (pyStrip hv) c) (pyStrip hv) =
              if occCnt (prev ++ [some hv]) (pyStrip hv) = 0 then Option.none
              else some (occCnt (prev ++ [some hv]) (pyStrip hv))) ∧ True := by
          intro c
          constructor
          · intro hh; exact ⟨hh (pyStrip hv) hblank, trivial⟩
          · intro hh s hs
            by_cases hss : s = pyStrip hv
            · subst hss; exact hh.1
            · rw [lookupCnt_setCnt_ne _ _ _ _ hss, occCnt_append_some,
                if_neg fun h2 : pyStrip hv = s => hss h2.symm]
              simpa using hinv s hs
        cases hocc : occCnt prev (pyStrip hv) with
        | zero =>
          rw [hocc] at hlook
          norm_num at hlook
          simp only [hlook, hocc]
          simp only [if_true]
          have hside := (hinv' 1).mpr
            ⟨by simp [lookupCnt_setCnt_self, occCnt_append_some, hocc], trivial⟩
          rw [ih (setCnt seen (pyStrip hv) 1) (prev ++ [some hv]) hside]
        | succ n =>
          rw [hocc] at hlook
          rw [if_neg (Nat.succ_ne_zero n)] at hlook
          simp only [hlook, hocc]
          rw [if_neg (by omega : ¬ n + 1 + 1 = 1)]
          have hside := (hinv' (n + 1 + 1)).mpr
            ⟨by simp [lookupCnt_setCnt_self, occCnt_append_some, hocc], trivial⟩
          rw [ih (setCnt seen (pyStrip hv) (n + 1 + 1)) (prev ++ [some hv]) hside]

/-! Claim theorems. -/

/-- C10: when the shared-string part is absent from the archive, the
parser returns the empty sequence and cannot fail (the `KeyError` handler
returns before any XML parsing happens; the function is total). -/
theorem c10_shared_strings_absent :
    _parse_shared_strings Option.none = ([] : List String) := rfl

/-- C4: `to_int` behaves exactly as claimed — an integer passes through,
a float coerces iff it has no fractional remainder, a string coerces iff
its trimmed form is a non-empty run of decimal digits, and every other
value (including `None` and booleans) is not-a-number; in particular
`"7" ↦ 7`, `"07a" ↦ None`, `7.0 ↦ 7`, `7.5 ↦ None`. -/
theorem c4_to_int_coercion :
    (∀ v : PyValue, to_int v = to_int_claimed v) ∧
    to_int (PyValue.vstr "7") = some 7 ∧
    to_int (PyValue.vstr "07a") = Option.none ∧
    to_int (PyValue.vfloat (7.0 : ℚ)) = some 7 ∧
    to_int (PyValue.vfloat (7.5 : ℚ)) = Option.none := by
  refine ⟨fun v => by cases v <;> rfl, by decide, by decide, ?_, ?_⟩
  · simp only [to_int]
    norm_num
  · simp only [to_int]
    norm_num

/-- C6: `clean_headers` agrees everywhere with the positional statement
of the claim (blank/absent headers to absent, first occurrence bare,
`n`-th duplicate suffixed `_n`), and on the claim's concrete example
`["Bola 1","Bola 1","Bola 1"]` it produces
`["Bola 1","Bola 1_2","Bola 1_3"]`. -/
theorem c6_clean_headers :
    (∀ hs : List (Option String), clean_headers hs = clean_headers_claimed hs) ∧
    clean_headers [some "Bola 1", some "Bola 1", some "Bola 1"] =
      [some "Bola 1", some "Bola 1_2", some "Bola 1_3"] := by
  constructor
  · intro hs
    apply cleanAux_eq_claim
    intro s _
    simp [lookupCnt, occCnt]
  · decide

theorem mem_takeWhile_pred {α : Type} {p : α → Bool} :
    ∀ (l : List α) (c : α), c ∈ l.takeWhile p → p c = true := by
  intro l
  induction l with
  | nil => intro c h; simp [List.takeWhile] at h
  | cons a as ih =>
    intro c h
    rw [List.takeWhile_cons] at h
    by_cases hp : p a
    · rw [if_pos hp] at h
      rcases List.mem_cons.mp h with h1 | h2
      · exact h1 ▸ hp
      · exact ih c h2
    · rw [if_neg hp] at h
      exact absurd h (List.not_mem_nil c)

/-- When `refMatch` succeeds, the extracted letter group is non-empty and
purely uppercase alphabetic. -/
theorem refMatch_letters (r letters : String) (h : refMatch r = some letters) :
    letters.data ≠ [] ∧ ∀ c ∈ letters.data, isUpperAZ c = true := by
  unfold refMatch at h
  cases htw : r.data.takeWhile isUpperAZ with
  | nil =>
    rw [htw] at h
    simp at h
  | cons a as =>
    rw [htw] at h
    cases hdw : r.data.dropWhile isUpperAZ with
    | nil =>
      rw [hdw] at h
      simp at h
    | cons d ds =>
      rw [hdw] at h
      dsimp only [] at h
      by_cases hd : isDigit09 d
      · rw [if_pos hd] at h
        have hlet : letters = String.mk (a :: as) := (Option.some.injEq _ _).mp h.symm
        subst hlet
        refine ⟨by simp, ?_⟩
        intro c hc
        exact mem_takeWhile_pred r.data c (htw ▸ hc)
      · rw [if_neg hd] at h
        simp at h

/-- C3 counterexample: on the non-alphabetic input `"1"` the decoder does
not fail — it returns the integer `-16` (`(ord("1") - ord("A") + 1) - 1`).
The claimed `InvalidColumnLabel` failure does not exist: `_col_to_index`
is a total function with no validation or raise in its body. -/
theorem c3_counterexample : _col_to_index "1" = -16 := by decide

/-- C3 amended: the decoder itself never fails and maps every string —
alphabetic or not — to an integer (on `"1"` it returns the out-of-range
value `-16`); validation lives at the call site instead, where the
cell-reference pattern only ever passes non-empty uppercase-alphabetic
letter groups to `_col_to_index`. -/
theorem c3_amended (r letters : String) (h : refMatch r = some letters) :
    _col_to_index "1" = -16 ∧
    letters.data ≠ [] ∧ ∀ c ∈ letters.data, isUpperAZ c = true :=
  ⟨by decide, refMatch_letters r letters h⟩

/-- C3 witness: the reference `"B2"` yields the letter group `"B"`, which
is non-empty and uppercase alphabetic. -/
theorem c3_amended_witness :
    refMatch "B2" = some "B" ∧
    (_col_to_index "1" = -16 ∧
      ("B" : String).data ≠ [] ∧ ∀ c ∈ ("B" : String).data, isUpperAZ c = true) :=
  ⟨rfl, c3_amended "B2" "B" rfl⟩

/-- C2 counterexample: a single shared-string cell whose value node reads
`"abc"` (unparseable as an integer) aborts the whole conversion with the
modelled `ValueError` from `int(v_el.text)` — it is not handled anywhere
in `read_first_sheet_rows`. -/
theorem c2_counterexample :
    read_first_sheet_rows [] [[cellBadShared]] = Except.error "ValueError" := rfl

/-- C2 amended: for a shared-string cell, graceful degradation only
covers a *parseable but out-of-range* index (fallback to the raw value
text); a value node that cannot be parsed as an integer raises and aborts
the archive conversion. -/
theorem c2_amended (shared : List String) (c : Cell) (txt : String)
    (hty : c.typ = some "s") (hv : c.vNode = some (some txt)) :
    (∀ n : Int, pyParseInt txt = some n →
      resolveCellValue shared c = Except.ok (some
        (if 0 ≤ n ∧ n < (shared.length : Int) then shared.getD n.toNat "" else txt))) ∧
    (pyParseInt txt = Option.none → resolveCellValue shared c = Except.error "ValueError") := by
  constructor
  · intro n hn
    simp [resolveCellValue, hty, hv, hn]
  · intro hn
    simp [resolveCellValue, hty, hv, hn]

/-- C2 witness: a parseable in-range index (`"0"` against a one-entry
table) resolves to the shared string without error. -/
theorem c2_amended_witness :
    pyParseInt "0" = some 0 ∧
    resolveCellValue ["X"] cellSharedZero = Except.ok (some
      (if (0 : Int) ≤ 0 ∧ (0 : Int) < ((["X"] : List String).length : Int)
        then (["X"] : List String).getD ((0 : Int)).toNat "" else "0")) :=
  ⟨rfl, (c2_amended ["X"] cellSharedZero "0" rfl rfl).1 0 rfl⟩

theorem procRow_none_of_blank (headers : List (Option String)) (numCols : List String)
    (row : List (Option String))
    (h : (∀ v ∈ row, isBlank v = true) ∨ isBlank (row.headD Option.none) = true) :
    procRow headers numCols row = Option.none := by
  rcases h with hall | hfirst
  · have htake : (row.take headers.length).all isBlank = true := by
      rw [List.all_eq_true]
      intro v hv
      exact hall v (List.mem_of_mem_take hv)
    simp [procRow, htake]
  · cases hl : headers.length with
    | zero => simp [procRow, hl]
    | succ n =>
      cases hrow : row with
      | nil => simp [procRow, hrow]
      | cons v0 rest =>
        rw [hrow] at hfirst
        simp only [List.headD_cons] at hfirst
        simp [procRow, hl, hrow, List.take_succ_cons, hfirst]

/-- C5: a data row that is entirely blank/absent, or whose first column
is blank/absent, contributes no record to `draws` — removing it from the
data rows leaves the produced records unchanged. -/
theorem c5_blank_first_column_excluded (headers : List (Option String))
    (numCols : List String) (pre post : List (List (Option String)))
    (row : List (Option String))
    (h : (∀ v ∈ row, isBlank v = true) ∨ isBlank (row.headD Option.none) = true) :
    drawsOf headers numCols (pre ++ row :: post) = drawsOf headers numCols (pre ++ post) := by
  unfold drawsOf
  rw [List.filterMap_append, List.filterMap_append, List.filterMap_cons,
    procRow_none_of_blank headers numCols row h]

/-- C5 witness: the row `[None, "x"]` has a blank first column but a
populated second column, and contributes nothing next to the header
`["A"]`. -/
theorem c5_witness :
    ((∀ v ∈ ([Option.none, some "x"] : List (Option String)), isBlank v = true) ∨
      isBlank (([Option.none, some "x"] : List (Option String)).headD Option.none) = true) ∧
    drawsOf [some "A"] [] ([] ++ [Option.none, some "x"] :: [[some "1"]]) =
      drawsOf [some "A"] [] ([] ++ [[some "1"]]) :=
  ⟨Or.inr rfl,
    c5_blank_first_column_excluded [some "A"] [] [] [[some "1"]]
      [Option.none, some "x"] (Or.inr rfl)⟩

/-- C9: the transform fails — with the `EmptyWorkbook` error, source
message `"Sem dados"` — exactly when the matrix has no rows at all; any
matrix whose data rows (if any) are all filtered out succeeds and yields
a dataset with zero rows, empty draws, zero total numbers, an empty
frequency map, and null `Concurso` / draw-date fields. -/
theorem c9_empty_workbook (m : List (List (Option String))) :
    (parse_xlsx_dataset m = Except.error "Sem dados" ↔ m = []) ∧
    (∀ hd tl, m = hd :: tl →
      (∀ r ∈ tl,
        procRow (clean_headers (hd.take (lastIdx hd + 1)))
          (extract_number_columns (clean_headers (hd.take (lastIdx hd + 1)))) r =
          Option.none) →
      ∃ d, parse_xlsx_dataset m = Except.ok d ∧ d.meta_rows = 0 ∧ d.draws = [] ∧
        d.total_numbers = 0 ∧ d.number_counts = [] ∧
        d.last_concurso = Option.none ∧ d.last_data = Option.none) := by
  constructor
  · constructor
    · intro h
      cases m with
      | nil => rfl
      | cons a b => simp [parse_xlsx_dataset] at h
    · intro h
      subst h
      rfl
  · intro hd tl hm hall
    subst hm
    have hdraws :
        drawsOf (clean_headers (hd.take (lastIdx hd + 1)))
          (extract_number_columns (clean_headers (hd.take (lastIdx hd + 1)))) tl = [] := by
      unfold drawsOf
      rw [List.filterMap_eq_nil_iff]
      exact hall
    refine ⟨_, rfl, ?_, ?_, ?_, ?_, ?_, ?_⟩ <;>
      simp [parse_xlsx_dataset, hdraws, totalOf, countsOf]

/-- C9 witness: a header-only matrix succeeds with an all-empty dataset. -/
theorem c9_witness :
    ∃ d, parse_xlsx_dataset [[some "Concurso"]] = Except.ok d ∧ d.meta_rows = 0 ∧
      d.draws = [] ∧ d.total_numbers = 0 ∧ d.number_counts = [] ∧
      d.last_concurso = Option.none ∧ d.last_data = Option.none :=
  (c9_empty_workbook [[some "Concurso"]]).2 [some "Concurso"] [] rfl
    (fun r hr => absurd hr (List.not_mem_nil r))

theorem takeWhile_append_all {α : Type} {p : α → Bool} :
    ∀ (l1 l2 : List α), (∀ a ∈ l1, p a = true) →
      (l1 ++ l2).takeWhile p = l1 ++ l2.takeWhile p ∧
      (l1 ++ l2).dropWhile p = l2.dropWhile p := by
  intro l1
  induction l1 with
  | nil => intro l2 _; simp
  | cons a as ih =>
    intro l2 h
    have ha : p a = true := h a (List.mem_cons_self a as)
    have ihs := ih l2 fun x hx => h x (List.mem_cons_of_mem a hx)
    constructor
    · rw [List.cons_append, List.takeWhile_cons, if_pos ha, ihs.1, List.cons_append]
    · rw [List.cons_append, List.dropWhile_cons, if_pos ha, ihs.2]

theorem digit_not_upper (c : Char) (h : isDigit09 c = true) : isUpperAZ c = false := by
  simp only [isDigit09, Bool.and_eq_true, decide_eq_true_eq] at h
  simp only [isUpperAZ, Bool.and_eq_false_iff]
  left
  simp only [decide_eq_false_iff_not]
  omega

/-- On a well-formed cell reference — a non-empty uppercase letter group
followed by a non-empty digit group — `refMatch` extracts exactly the
letter group. -/
theorem refMatch_valid (letters digits : List Char) (h1 : letters ≠ [])
    (h2 : ∀ ch ∈ letters, isUpperAZ ch = true) (h3 : digits ≠ [])
    (h4 : ∀ ch ∈ digits, isDigit09 ch = true) :
    refMatch (String.mk (letters ++ digits)) = some (String.mk letters) := by
  cases digits with
  | nil => exact absurd rfl h3
  | cons d ds =>
    have hd : isDigit09 d = true := h4 d (List.mem_cons_self d ds)
    have hfirst : isUpperAZ d = false := digit_not_upper d hd
    have htw := takeWhile_append_all letters (d :: ds) h2
    unfold refMatch
    simp only []
    rw [htw.1, htw.2, List.takeWhile_cons, if_neg (by rw [hfirst]; simp),
      List.dropWhile_cons, if_neg (by rw [hfirst]; simp), List.append_nil]
    cases letters with
    | nil => exact absurd rfl h1
    | cons a as => simp [hd]

theorem except_match_as_map (e : Except String (List (Nat × Option String) × Nat))
    (x : Nat) (v : Option String) :
    (match e with
      | Except.error err => Except.error err
      | Except.ok (rest, g2) => Except.ok ((x, v) :: rest, g2)) =
    e.map fun p => ((x, v) :: p.1, p.2) := by
  cases e with
  | error err => rfl
  | ok p => obtain ⟨rest, g2⟩ := p; rfl

/-- C8: within a row the cursor semantics is exactly as claimed — a cell
without an explicit reference is placed at the current cursor, a cell
with a well-formed reference is placed at the column decoded from the
reference's letters alone (the digits, i.e. the row-number portion, do
not influence the result, and neither does the incoming cursor), and in
both cases the cursor for the rest of the row advances to one past the
placed column. -/
theorem c8_cursor_semantics (shared : List String) (cur g : Nat) (c : Cell)
    (cs : List Cell) (v : Option String)
    (hv : resolveCellValue shared c = Except.ok v) :
    (c.ref = Option.none →
      processCells shared (c :: cs) cur g =
        (processCells shared cs (cur + 1) (max g cur)).map
          fun p => ((cur, v) :: p.1, p.2)) ∧
    (∀ letters digits : List Char, letters ≠ [] →
      (∀ ch ∈ letters, isUpperAZ ch = true) → digits ≠ [] →
      (∀ ch ∈ digits, isDigit09 ch = true) →
      c.ref = some (String.mk (letters ++ digits)) →
      processCells shared (c :: cs) cur g =
        (processCells shared cs ((_col_to_index (String.mk letters)).toNat + 1)
            (max g (_col_to_index (String.mk letters)).toNat)).map
          fun p => (((_col_to_index (String.mk letters)).toNat, v) :: p.1, p.2)) := by
  constructor
  · intro href
    conv_lhs => unfold processCells
    rw [href, hv]
    dsimp only []
    exact except_match_as_map _ _ _
  · intro letters digits h1 h2 h3 h4 href
    conv_lhs => unfold processCells
    rw [href]
    dsimp only []
    rw [refMatch_valid letters digits h1 h2 h3 h4, hv]
    dsimp only []
    exact except_match_as_map _ _ _

/-- C8 witness: the explicit reference `"C7"` places the cell at column
`2` regardless of the incoming cursor, and the cursor continues at `3`. -/
theorem c8_witness :
    resolveCellValue [] cellRefC7 = Except.ok (some "x") ∧
    processCells [] [cellRefC7] 0 0 =
      (processCells [] [] ((_col_to_index (String.mk ['C'])).toNat + 1)
          (max 0 (_col_to_index (String.mk ['C'])).toNat)).map
        fun p => (((_col_to_index (String.mk ['C'])).toNat, some "x") :: p.1, p.2) :=
  ⟨rfl,
    (c8_cursor_semantics [] 0 0 cellRefC7 [] (some "x") rfl).2 ['C'] ['7']
      (by decide) (by decide) (by decide) (by decide) rfl⟩

theorem col_to_index_eq (s : String) :
    _col_to_index s = colVal (s.data.map pyUpper) - 1 := rfl

theorem pyUpper_id (c : Char) (h : isUpperAZ c = true) : pyUpper c = c := by
  simp only [isUpperAZ, Bool.and_eq_true, decide_eq_true_eq] at h
  unfold pyUpper
  rw [if_neg]
  omega

theorem map_pyUpper_id (cs : List Char) (h : ∀ c ∈ cs, isUpperAZ c = true) :
    cs.map pyUpper = cs := by
  induction cs with
  | nil => rfl
  | cons a as ih =>
    rw [List.map_cons, pyUpper_id a (h a (List.mem_cons_self a as)),
      ih fun c hc => h c (List.mem_cons_of_mem a hc)]

theorem repunit_nonneg : ∀ n : Nat, 0 ≤ repunit n := by
  intro n
  induction n with
  | zero => exact le_refl 0
  | succ m ih => unfold repunit; omega

theorem repunit_pow : ∀ n : Nat, 25 * repunit n = 26 ^ n - 1 := by
  intro n
  induction n with
  | zero => simp [repunit]
  | succ m ih =>
    unfold repunit
    rw [pow_succ]
    omega

theorem repunit_monotone : Monotone repunit := by
  apply monotone_nat_of_le_succ
  intro n
  have h := repunit_nonneg n
  show repunit n ≤ 26 * repunit n + 1
  omega

theorem foldl_colStep_acc : ∀ (cs : List Char) (acc : Int),
    cs.foldl colStep acc = acc * 26 ^ cs.length + colVal cs := by
  intro cs
  induction cs with
  | nil => intro acc; simp [colVal]
  | cons c cs ih =>
    intro acc
    simp only [List.foldl_cons, colVal, List.length_cons]
    rw [ih (colStep acc c), ih (colStep 0 c)]
    simp only [colStep]
    ring

theorem colVal_cons (c : Char) (cs : List Char) :
    colVal (c :: cs) = ((c.toNat : Int) - 65 + 1) * 26 ^ cs.length + colVal cs := by
  show List.foldl colStep (colStep 0 c) cs = _
  rw [foldl_colStep_acc]
  simp only [colStep]
  ring

theorem upper_digit_bounds (c : Char) (h : isUpperAZ c = true) :
    1 ≤ (c.toNat : Int) - 65 + 1 ∧ (c.toNat : Int) - 65 + 1 ≤ 26 := by
  simp only [isUpperAZ, Bool.and_eq_true, decide_eq_true_eq] at h
  omega

theorem colVal_bounds : ∀ cs : List Char, (∀ c ∈ cs, isUpperAZ c = true) →
    repunit cs.length ≤ colVal cs ∧ colVal cs ≤ 26 * repunit cs.length := by
  intro cs
  induction cs with
  | nil => intro _; simp [colVal, repunit]
  | cons c cs ih =>
    intro h
    have hd := upper_digit_bounds c (h c (List.mem_cons_self c cs))
    have hcs := ih fun x hx => h x (List.mem_cons_of_mem c hx)
    have hpow := repunit_pow cs.length
    have hpos : (0 : Int) < 26 ^ cs.length := by positivity
    rw [colVal_cons, List.length_cons]
    have hlow : (26 : Int) ^ cs.length ≤ ((c.toNat : Int) - 65 + 1) * 26 ^ cs.length :=
      le_mul_of_one_le_left (le_of_lt hpos) hd.1
    have hhigh : ((c.toNat : Int) - 65 + 1) * 26 ^ cs.length ≤ 26 * 26 ^ cs.length :=
      mul_le_mul_of_nonneg_right hd.2 (le_of_lt hpos)
    unfold repunit
    constructor
    · have := hcs.1
      omega
    · have := hcs.2
      omega

theorem colVal_lt_of_length_lt (a b : List Char)
    (ha : ∀ c ∈ a, isUpperAZ c = true) (hb : ∀ c ∈ b, isUpperAZ c = true)
    (hlen : a.length < b.length) : colVal a < colVal b := by
  have h1 := (colVal_bounds a ha).2
  have h2 := (colVal_bounds b hb).1
  have h3 : repunit (a.length + 1) ≤ repunit b.length := repunit_monotone hlen
  have h4 : 26 * repunit a.length < repunit (a.length + 1) := by
    show 26 * repunit a.length < 26 * repunit a.length + 1
    omega
  omega

theorem colVal_lt_of_lex : ∀ a b : List Char,
    List.Lex (fun c d : Char => c < d) a b → a.length = b.length →
    (∀ c ∈ a, isUpperAZ c = true) → (∀ c ∈ b, isUpperAZ c = true) →
    colVal a < colVal b := by
  intro a b hlex
  induction hlex with
  | nil => intro hlen _ _; simp at hlen
  | @cons c l1 l2 hl ih =>
    intro hlen ha hb
    have hlen2 : l1.length = l2.length := by simpa using hlen
    have hstep := ih hlen2 (fun x hx => ha x (List.mem_cons_of_mem c hx))
      (fun x hx => hb x (List.mem_cons_of_mem c hx))
    rw [colVal_cons, colVal_cons, hlen2]
    omega
  | @rel c1 l1 c2 l2 hcc =>
    intro hlen ha hb
    have hlen2 : l1.length = l2.length := by simpa using hlen
    have h1 := colVal_bounds l1 fun x hx => ha x (List.mem_cons_of_mem c1 hx)
    have h2 := colVal_bounds l2 fun x hx => hb x (List.mem_cons_of_mem c2 hx)
    have hd1 := upper_digit_bounds c1 (ha c1 (List.mem_cons_self c1 l1))
    have hd2 := upper_digit_bounds c2 (hb c2 (List.mem_cons_self c2 l2))
    have hpow := repunit_pow l2.length
    have hpos : (0 : Int) < 26 ^ l2.length := by positivity
    have hlt : (c1.toNat : Int) < (c2.toNat : Int) := by
      have : c1.toNat < c2.toNat := hcc
      exact_mod_cast this
    rw [hlen2] at h1
    rw [colVal_cons, colVal_cons, hlen2]
    have hmul : ((c1.toNat : Int) - 65 + 1 + 1) * 26 ^ l2.length ≤
        ((c2.toNat : Int) - 65 + 1) * 26 ^ l2.length :=
      mul_le_mul_of_nonneg_right (by omega) (le_of_lt hpos)
    linarith [h1.2, h2.1, hmul, hpow, hpos]

/-- C7: `_col_to_index` is the zero-based bijective base-26 decoder
(`"A" ↦ 0`, `"Z" ↦ 25`, `"AA" ↦ 26`), and over valid uppercase alphabetic
labels it is strictly increasing in spreadsheet label order (shorter
labels first, lexicographic within a length). -/
theorem c7_label_order :
    _col_to_index "A" = 0 ∧ _col_to_index "Z" = 25 ∧ _col_to_index "AA" = 26 ∧
    ∀ a b : String, validLabel a → validLabel b → labelLt a b →
      _col_to_index a < _col_to_index b := by
  refine ⟨by decide, by decide, by decide, ?_⟩
  intro a b hva hvb hlt
  obtain ⟨-, ha⟩ := hva
  obtain ⟨-, hb⟩ := hvb
  rw [col_to_index_eq, col_to_index_eq, map_pyUpper_id a.data ha, map_pyUpper_id b.data hb]
  have : colVal a.data < colVal b.data := by
    rcases hlt with hlen | ⟨hlen, hlex⟩
    · exact colVal_lt_of_length_lt a.data b.data ha hb hlen
    · exact colVal_lt_of_lex a.data b.data hlex hlen ha hb
  omega

/-- C7 witness: `"A" < "Z"` in label order, both labels valid, and the
decoder respects it. -/
theorem c7_witness :
    validLabel "A" ∧ validLabel "Z" ∧ labelLt "A" "Z" ∧
    _col_to_index "A" < _col_to_index "Z" :=
  ⟨⟨by decide, by decide⟩, ⟨by decide, by decide⟩,
    Or.inr ⟨rfl, List.Lex.rel (by decide)⟩,
    c7_label_order.2.2.2 "A" "Z" ⟨by decide, by decide⟩ ⟨by decide, by decide⟩
      (Or.inr ⟨rfl, List.Lex.rel (by decide)⟩)⟩

theorem processCells_g_le : ∀ (cs : List Cell) (shared : List String) (cur g : Nat)
    (w : List (Nat × Option String)) (g2 : Nat),
    processCells shared cs cur g = Except.ok (w, g2) → g ≤ g2 := by
  intro cs
  induction cs with
  | nil =>
    intro shared cur g w g2 h
    simp only [processCells, Except.ok.injEq, Prod.mk.injEq] at h
    omega
  | cons c cs ih =>
    intro shared cur g w g2 h
    unfold processCells at h
    cases hv : resolveCellValue shared c with
    | error e => rw [hv] at h; simp at h
    | ok v =>
      rw [hv] at h
      dsimp only [] at h
      cases hrec : processCells shared cs
          ((match c.ref with
            | Option.none => cur
            | some r =>
              match refMatch r with
              | some letters => (_col_to_index letters).toNat
              | Option.none => cur) + 1)
          (max g (match c.ref with
            | Option.none => cur
            | some r =>
              match refMatch r with
              | some letters => (_col_to_index letters).toNat
              | Option.none => cur)) with
      | error e => rw [hrec] at h; simp at h
      | ok p =>
        obtain ⟨rest, g3⟩ := p
        rw [hrec] at h
        simp only [Except.ok.injEq, Prod.mk.injEq] at h
        have := ih shared _ _ rest g3 hrec
        omega

theorem processCells_empty_writes : ∀ (cs : List Cell) (shared : List String)
    (cur g g2 : Nat),
    processCells shared cs cur g = Except.ok ([], g2) → g2 = g := by
  intro cs shared cur g g2 h
  cases cs with
  | nil =>
    simp only [processCells, Except.ok.injEq, Prod.mk.injEq] at h
    omega
  | cons c cs =>
    unfold processCells at h
    cases hv : resolveCellValue shared c with
    | error e => rw [hv] at h; simp at h
    | ok v =>
      rw [hv] at h
      dsimp only [] at h
      cases hrec : processCells shared cs
          ((match c.ref with
            | Option.none => cur
            | some r =>
              match refMatch r with
              | some letters => (_col_to_index letters).toNat
              | Option.none => cur) + 1)
          (max g (match c.ref with
            | Option.none => cur
            | some r =>
              match refMatch r with
              | some letters => (_col_to_index letters).toNat
              | Option.none => cur)) with
      | error e => rw [hrec] at h; simp at h
      | ok p =>
        obtain ⟨rest, g3⟩ := p
        rw [hrec] at h
        simp at h

theorem foldl_set_length : ∀ (ws : List (Nat × Option String)) (row : List (Option String)),
    (ws.foldl (fun r iv => r.set iv.1 iv.2) row).length = row.length := by
  intro ws
  induction ws with
  | nil => intro row; rfl
  | cons w ws ih =>
    intro row
    rw [List.foldl_cons, ih, List.length_set]

theorem buildRow_length (width : Nat) (writes : List (Nat × Option String)) :
    (buildRow width writes).length = width := by
  unfold buildRow
  rw [foldl_set_length, List.length_replicate]

theorem rowsInv_nil : RowsInv [] 0 := by
  refine ⟨List.Pairwise.nil, ?_, ?_⟩
  · intro r hr; exact absurd hr (List.not_mem_nil r)
  · intro l hl; simp at hl

theorem rowsInv_append (acc : List (List (Option String))) (g g2 : Nat)
    (h : RowsInv acc g) (hle : g ≤ g2) (row : List (Option String))
    (hrow : row.length = g2 + 1) : RowsInv (acc ++ [row]) g2 := by
  obtain ⟨hsorted, hbound, hlast⟩ := h
  refine ⟨?_, ?_, ?_⟩
  · rw [List.map_append]
    rw [List.pairwise_append]
    refine ⟨hsorted, List.pairwise_singleton _ _, ?_⟩
    intro a hamem b hbmem
    simp only [List.map_cons, List.map_nil, List.mem_singleton] at hbmem
    subst hbmem
    obtain ⟨r, hr, hrlen⟩ := List.mem_map.mp hamem
    subst hrlen
    have := hbound r hr
    omega
  · intro r hr
    rcases List.mem_append.mp hr with h1 | h2
    · have := hbound r h1; omega
    · rw [List.mem_singleton.mp h2, hrow]
  · intro l hl
    rw [List.getLast?_concat] at hl
    rw [← Option.some.injEq _ _ |>.mp hl, hrow]

theorem readRowsAux_inv : ∀ (rs : List (List Cell)) (shared : List String)
    (acc : List (List (Option String))) (g : Nat)
    (out : List (List (Option String))) (gfin : Nat),
    readRowsAux shared rs acc g = Except.ok (out, gfin) → RowsInv acc g →
    RowsInv out gfin := by
  intro rs
  induction rs with
  | nil =>
    intro shared acc g out gfin h hinv
    simp only [readRowsAux, Except.ok.injEq, Prod.mk.injEq] at h
    rw [← h.1, ← h.2]
    exact hinv
  | cons cs rs ih =>
    intro shared acc g out gfin h hinv
    unfold readRowsAux at h
    cases hp : processCells shared cs 0 g with
    | error e => rw [hp] at h; simp at h
    | ok p =>
      obtain ⟨writes, g2⟩ := p
      rw [hp] at h
      dsimp only [] at h
      have hg : g ≤ g2 := processCells_g_le cs shared 0 g writes g2 hp
      by_cases hskip : writes.isEmpty && acc.isEmpty
      · rw [if_pos hskip] at h
        have hw : writes = [] := by
          have := (Bool.and_eq_true _ _).mp hskip
          exact List.isEmpty_iff.mp this.1
        have hg2 : g2 = g := processCells_empty_writes cs shared 0 g g2 (hw ▸ hp)
        rw [hg2] at h
        exact ih shared acc g out gfin h hinv
      · rw [if_neg hskip] at h
        exact ih shared (acc ++ [buildRow (g2 + 1) writes]) g2 out gfin h
          (rowsInv_append acc g g2 hinv hg _ (buildRow_length _ _))

/-- C1 counterexample: a sheet whose first row only touches column 0 and
whose second row jumps to column `B` yields rows of lengths 1 and 2 —
the rows of the returned matrix do *not* all have the common width
`1 + maxColumnIndexSeen`: early rows are never widened after the global
maximum grows. -/
theorem c1_counterexample :
    read_first_sheet_rows [] cexSheet =
      Except.ok [[some "a"], [Option.none, some "b"]] ∧
    ([some "a"] : List (Option String)).length ≠
      ([Option.none, some "b"] : List (Option String)).length :=
  ⟨rfl, by decide⟩

/-- C1 amended: each row is materialized with width one plus the
*running* maximum column index at the moment it is scanned and is never
widened afterwards; consequently row lengths are nondecreasing down the
matrix, every row's length is at most one plus the global maximum column
index, and only the final materialized row is guaranteed to have exactly
that full width. -/
theorem c1_running_width (shared : List String) (sheetRows : List (List Cell))
    (out : List (List (Option String))) (g : Nat)
    (h : readRowsAux shared sheetRows [] 0 = Except.ok (out, g)) :
    List.Pairwise (fun a b => a ≤ b) (out.map fun r => r.length) ∧
    (∀ r ∈ out, r.length ≤ g + 1) ∧
    (∀ l, out.getLast? = some l → l.length = g + 1) :=
  readRowsAux_inv sheetRows shared [] 0 out g h rowsInv_nil

/-- C1 witness: on the two-row counterexample sheet the lengths `[1, 2]`
are nondecreasing, bounded by `1 + 1`, and the last row has width 2. -/
theorem c1_running_width_witness :
    List.Pairwise (fun a b => a ≤ b)
      (([[some "a"], [Option.none, some "b"]] :
        List (List (Option String))).map fun r => r.length) ∧
    (∀ r ∈ ([[some "a"], [Option.none, some "b"]] : List (List (Option String))),
      r.length ≤ 1 + 1) ∧
    (∀ l, ([[some "a"], [Option.none, some "b"]] :
        List (List (Option String))).getLast? = some l → l.length = 1 + 1) :=
  c1_running_width [] cexSheet [[some "a"], [Option.none, some "b"]] 1 rfl

end BuildData
